import Mathlib

/-!
Shallow embedding of rofi-apps.py: a launcher-integration script that loads a
JSON-with-comments rule config, walks three application-descriptor roots,
wraps each readable descriptor in an Entry, filters hidden / blacklisted /
duplicate entries, locale-sorts the rest and prints one record per entry.

External collaborators are abstracted as parameters:
  - the regex engine re.search is a parameter search : String -> String -> Bool
    (pattern, subject) giving the truthiness of the match object;
  - locale.strxfrm is a parameter strxfrm : String -> String;
  - json.loads is a parameter parseJson : String -> Option Json;
  - Gio.DesktopAppInfo parsing of one file is the input data of the pipeline
    (a WalkItem carries either the parsed Desktop fields or the TypeError
    message raised by the constructor).
Python exceptions are modelled with the Except monad.
-/

namespace RofiApps

/-- Python runtime errors that the script can raise or catch. -/
inductive PyError
  | typeError (msg : String)
  | keyError (key : String)
  | nameError (missing : String)
  | jsonDecodeError
  | osError
deriving DecidableEq, Repr

/-- The Gio icon object attached to a descriptor, as far as getIcon inspects
it: a Gio.FileIcon (whose get_file().get_path() may be None), a
Gio.ThemedIcon (get_names() returns the nonempty list of theme names), or an
icon of any other class (getIcon falls through and returns None for it). -/
inductive GIcon
  | fileIcon (path : Option String)
  | themedIcon (firstName : String) (restNames : List String)
  | otherIcon
deriving DecidableEq, Repr

/-- The fields of a parsed Gio.DesktopAppInfo that the script reads:
get_nodisplay, get_name, get_commandline, get_icon. -/
structure Desktop where
  noDisplay : Bool
  name : String
  commandline : String
  icon : Option GIcon
deriving DecidableEq, Repr

/-- The Entry wrapper: path is the constructor argument (get_filename returns
it), entry the parsed descriptor, customName the slot that __init__ sets to
None and that no other code ever assigns. -/
structure Entry where
  path : String
  entry : Desktop
  customName : Option String
deriving DecidableEq, Repr

/-- A rule is the JSON object of one config rule: a mapping from keys to
regex-pattern strings. json.loads produces unique keys (a duplicate key keeps
the last value), so an association list with first-match lookup is faithful. -/
abbrev Rule := List (String × String)

/-- Truthiness of an optional Python string: None and the empty string are
falsy, every other string is truthy. -/
def pyTruthy : Option String → Bool
  | none => false
  | some s => !(s == "")

/-- Entry.getName. The source reads: if self.customName is truthy it executes
the statement return customName, which names an unbound identifier and hence
raises NameError; otherwise it returns self.entry.get_name(). -/
def Entry.getName (e : Entry) : Except PyError String :=
  if pyTruthy e.customName then
    .error (.nameError "customName")
  else
    .ok e.entry.name

/-- Entry.getCommandLine: the descriptor commandline. -/
def Entry.getCommandLine (e : Entry) : String := e.entry.commandline

/-- Entry.getNoDisplay: the descriptor NoDisplay flag. -/
def Entry.getNoDisplay (e : Entry) : Bool := e.entry.noDisplay

/-- Entry.getPath: the file path the Entry was constructed from. -/
def Entry.getPath (e : Entry) : String := e.path

/-- Characters after the last slash: the accumulator restarts at every
slash and collects everything else. -/
def basenameChars (cs : List Char) : List Char :=
  cs.foldl (fun acc c => if c = '/' then [] else acc ++ [c]) []

/-- pathlib Path(p).name for the slash-separated paths produced by rglob:
the component after the last slash. -/
def basename (p : String) : String := ⟨basenameChars p.data⟩

/-- Entry.getFilename: basename of the descriptor path. -/
def Entry.getFilename (e : Entry) : String := basename e.getPath

/-- Entry.getIcon. A missing icon gives None; a FileIcon yields
get_file().get_path() (itself possibly None); a ThemedIcon yields the first
theme name; any other icon class falls off the end of the function, which in
Python returns None. -/
def Entry.getIcon (e : Entry) : Option String :=
  match e.entry.icon with
  | none => none
  | some (.fileIcon p) => p
  | some (.themedIcon firstName _) => some firstName
  | some .otherIcon => none

/-- Entry.matchRule. An empty mapping (len(rule) == 0) returns False at once;
otherwise the conjunction starts at True, is and-ed with the search of
rule["name"] against getName() when the key "name" is present, and with the
search of rule["exec"] against getCommandLine() when the key "exec" is
present. getName() can raise, and the exception propagates. -/
def Entry.matchRule (search : String → String → Bool) (e : Entry) (rule : Rule) :
    Except PyError Bool :=
  if rule.length = 0 then
    .ok false
  else do
    let m1 ← match rule.lookup "name" with
      | some pat => do
          let n ← e.getName
          pure (search pat n)
      | none => pure true
    let m2 : Bool ← match rule.lookup "exec" with
      | some pat => pure (search pat e.getCommandLine)
      | none => pure true
    pure (m1 && m2)

/-- The loaded config as the pipeline consumes it: the three rule lists
stored by Config.__init__ (customs is stored but never read downstream). -/
structure Config where
  blacklist : List Rule
  pinned : List Rule
  customs : List Rule
deriving DecidableEq, Repr

/-- The rule loop shared by isBlacklisted and indexOfPinned: test the rules
in order until one matches. -/
def Entry.matchAnyRule (search : String → String → Bool) (e : Entry) :
    List Rule → Except PyError Bool
  | [] => .ok false
  | r :: rs => do
      let m ← e.matchRule search r
      if m then pure true else e.matchAnyRule search rs

/-- Entry.isBlacklisted: some rule of config.getBlacklist() matches,
first match short-circuiting. -/
def Entry.isBlacklisted (search : String → String → Bool) (e : Entry) (config : Config) :
    Except PyError Bool :=
  e.matchAnyRule search config.blacklist

/-- Helper for indexOfPinned: index of the first matching rule, counting
from i. -/
def Entry.indexFrom (search : String → String → Bool) (e : Entry) (i : Int) :
    List Rule → Except PyError Int
  | [] => .ok (-1)
  | r :: rs => do
      let m ← e.matchRule search r
      if m then pure i else e.indexFrom search (i + 1) rs

/-- Entry.indexOfPinned: index of the first rule of config.getPinned() that
matches, or -1. (Loaded and defined but never called by main.) -/
def Entry.indexOfPinned (search : String → String → Bool) (e : Entry) (config : Config) :
    Except PyError Int :=
  e.indexFrom search 0 config.pinned

/-- Rendering of an optional string by a Python f-string: str(None) is the
four-character string None. -/
def pyStrOfOptStr : Option String → String
  | none => "None"
  | some s => s

/-- One stdout record, as printed by main:
getName() ++ NUL ++ icon ++ US ++ str(getIcon()) ++ US ++ info ++ US ++ getPath(). -/
def Entry.formatRecord (e : Entry) : Except PyError String := do
  let n ← e.getName
  pure (n ++ "\x00icon\x1f" ++ pyStrOfOptStr e.getIcon ++ "\x1finfo\x1f" ++ e.getPath)

/-! Config loading (Config.__init__): read the file, strip the comments that
two adjacent slashes introduce (re.sub applied per line in MULTILINE mode),
json.loads the remainder, and subscript the three required keys. -/

/-- A parsed JSON document. -/
inductive Json
  | null
  | bool (b : Bool)
  | num (n : Int)
  | str (s : String)
  | arr (items : List Json)
  | obj (fields : List (String × Json))
deriving Repr

/-- Whether a character list starts with a slash. -/
def isSlashHead : List Char → Bool
  | [] => false
  | c :: _ => c == '/'

/-- Comment stripping on the characters of one line: the regex //.*?$ in
MULTILINE mode deletes everything from the first occurrence of two adjacent
slashes to the end of the line, with no awareness of string literals. -/
def stripChars : List Char → List Char
  | [] => []
  | c :: rest =>
      if c == '/' && isSlashHead rest then []
      else c :: stripChars rest

/-- Splitting a character list at every newline, the way MULTILINE mode
sees lines. -/
def splitOnNl : List Char → List (List Char)
  | [] => [[]]
  | '\n' :: rest => [] :: splitOnNl rest
  | c :: rest =>
      match splitOnNl rest with
      | [] => [[c]]
      | l :: ls => (c :: l) :: ls

/-- Joining lines back with newlines. -/
def joinNl : List (List Char) → List Char
  | [] => []
  | [l] => l
  | l :: ls => l ++ '\n' :: joinNl ls

/-- re.sub of //.*?$ with the empty string in MULTILINE mode: the dot does
not cross newlines and the dollar anchors at each end of line, so the
substitution strips every newline-separated line independently. -/
def stripComments (s : String) : String :=
  ⟨joinNl ((splitOnNl s.data).map stripChars)⟩

/-- Python subscription doc[key] with a string key: an object looks the key
up and raises KeyError when it is missing; any non-object document raises
TypeError. -/
def Json.getItem : Json → String → Except PyError Json
  | .obj fields, key =>
      match fields.lookup key with
      | some v => .ok v
      | none => .error (.keyError key)
  | _, _ => .error (.typeError "indices must be integers")

/-- Whether a JSON document is an object carrying the given key. -/
def Json.hasField : Json → String → Bool
  | .obj fields, key => fields.any (fun f => f.1 == key)
  | _, _ => false

/-- Config.__init__: fileContent is the result of reading the file (open can
raise), parseJson abstracts json.loads (None for a JSONDecodeError). On
success the three raw field values are extracted in order. -/
def loadConfig (fileContent : Except PyError String) (parseJson : String → Option Json) :
    Except PyError (Json × Json × Json) := do
  let raw ← fileContent
  match parseJson (stripComments raw) with
  | none => .error .jsonDecodeError
  | some doc => do
      let bl ← doc.getItem "blacklist"
      let pn ← doc.getItem "pinned"
      let cs ← doc.getItem "customs"
      pure (bl, pn, cs)

/-- Whether two adjacent slashes occur anywhere in a character list. -/
def hasDoubleSlash : List Char → Bool
  | [] => false
  | c :: rest => (c == '/' && isSlashHead rest) || hasDoubleSlash rest

/-- Comment stripping cuts a line at the first occurrence of two adjacent
slashes, wherever they stand: if no double slash occurs up to and including
the position right before the comment marker, everything before the marker
is kept and everything from it on is dropped. -/
theorem stripChars_cut : ∀ (pre rest : List Char),
    hasDoubleSlash (pre ++ ['/']) = false →
    stripChars (pre ++ '/' :: '/' :: rest) = pre
  | [], rest, _ => by simp [stripChars, isSlashHead]
  | c :: cs, rest, h => by
    rw [List.cons_append, hasDoubleSlash] at h
    rw [Bool.or_eq_false_iff] at h
    obtain ⟨h1, h2⟩ := h
    have hhead : isSlashHead (cs ++ '/' :: '/' :: rest) = isSlashHead (cs ++ ['/']) := by
      cases cs <;> simp [isSlashHead]
    rw [List.cons_append, stripChars, hhead, h1]
    simp [stripChars_cut cs rest h2]

/-! The collection pipeline of main, lines 35 to 77. The walk over the three
ENTRIES_PATHS roots is the input list of WalkItem, in walk order: the items
of the user-local root first, then /usr/local, then /usr. -/

/-- One filesystem object yielded by rglob: a directory, or a file together
with the outcome of Entry(path) construction (Gio raises TypeError, carried
as its message, when the file is not a loadable desktop entry). -/
inductive WalkItem
  | dir (path : String)
  | file (path : String) (parsed : Except String Desktop)

/-- The mutable state of the collection loop: the two accumulation lists and
the diagnostics printed to stderr so far. -/
structure PipeState where
  entriesPinned : List Entry
  entriesSorted : List Entry
  stderrLines : List String
deriving Repr

/-- First diagnostic line printed when Entry construction raises TypeError. -/
def parseErrLine1 (path : String) : String :=
  "[@] TypeError while processing " ++ path ++ ". Probably not a desktop entry."

/-- Second diagnostic line: the exception text. -/
def parseErrLine2 (msg : String) : String := "[@] " ++ msg

/-- The body of the walk loop for one item: skip directories; on a parse
failure print the two diagnostic lines and continue; otherwise skip hidden,
blacklisted and duplicate-filename entries and append the rest to
entriesSorted. Exceptions other than the caught TypeError would propagate. -/
def processItem (search : String → String → Bool) (config : Config) (st : PipeState) :
    WalkItem → Except PyError PipeState
  | .dir _ => .ok st
  | .file path parsed =>
    match parsed with
    | .error msg =>
        .ok { st with stderrLines := st.stderrLines ++ [parseErrLine1 path, parseErrLine2 msg] }
    | .ok d => do
        let e : Entry := ⟨path, d, none⟩
        if e.getNoDisplay then
          pure st
        else do
          let bl ← e.isBlacklisted search config
          if bl then
            pure st
          else if ((st.entriesPinned ++ st.entriesSorted).map Entry.getFilename).contains
              e.getFilename then
            pure st
          else
            pure { st with entriesSorted := st.entriesSorted ++ [e] }

/-- The whole walk loop, threading the state through the items in order. -/
def collect (search : String → String → Bool) (config : Config) :
    PipeState → List WalkItem → Except PyError PipeState
  | st, [] => .ok st
  | st, it :: rest => do
      let st1 ← processItem search config st it
      collect search config st1 rest

/-- The state before the walk: both lists empty, nothing printed. -/
def initState : PipeState := ⟨[], [], []⟩

/-- Comparison of decorated entries by their precomputed strxfrm keys, the
order list.sort uses. -/
def keyLE (a b : String × Entry) : Bool := decide (a.1 ≤ b.1)

/-- Key extraction pass of entriesSorted.sort(key=...): the key function is
evaluated once per element, in list order, and can raise. -/
def decorate (strxfrm : String → String) : List Entry → Except PyError (List (String × Entry))
  | [] => .ok []
  | e :: rest => do
      let n ← e.getName
      let ds ← decorate strxfrm rest
      pure ((strxfrm n, e) :: ds)

/-- list.sort(key=lambda e: strxfrm(e.getName())): decorate with the keys,
stable-sort by key, take the entries back out. CPython Timsort and a stable
merge sort agree on every list because the key order is total. -/
def sortEntries (strxfrm : String → String) (entries : List Entry) :
    Except PyError (List Entry) := do
  let keyed ← decorate strxfrm entries
  pure ((keyed.mergeSort keyLE).map Prod.snd)

/-- The final concatenated entry list entriesPinned + entriesSorted after
the sort. -/
def finalEntries (search : String → String → Bool) (strxfrm : String → String)
    (config : Config) (items : List WalkItem) : Except PyError (List Entry) := do
  let st ← collect search config initState items
  let sortedEntries ← sortEntries strxfrm st.entriesSorted
  pure (st.entriesPinned ++ sortedEntries)

/-- What the run writes on the two streams. -/
structure RunOutput where
  stdoutLines : List String
  stderrLines : List String
deriving DecidableEq, Repr

/-- The print loop at the end of main, one stdout record per entry, in list
order. -/
def printAll : List Entry → Except PyError (List String)
  | [] => .ok []
  | e :: rest => do
      let line ← e.formatRecord
      let lines ← printAll rest
      pure (line :: lines)

/-- The whole pipeline after config loading: collect, sort, concatenate and
print one record per entry. The guard if entry: in the print loop never
drops anything because an Entry instance is always truthy in Python. -/
def run (search : String → String → Bool) (strxfrm : String → String)
    (config : Config) (items : List WalkItem) : Except PyError RunOutput := do
  let st ← collect search config initState items
  let sortedEntries ← sortEntries strxfrm st.entriesSorted
  let lines ← printAll (st.entriesPinned ++ sortedEntries)
  pure ⟨lines, st.stderrLines⟩

/-! Derived pure characterizations of the pipeline. Every Entry that main
constructs has customName = none, so none of the calls that could raise
NameError ever does; the Except-valued functions above then agree with the
following pure ones, and the agreement is proved, not assumed. -/

/-- Monad bind on Except applied to a success, unfolded. -/
theorem exceptBind_ok {ε α β : Type} (a : α) (f : α → Except ε β) :
    (Except.ok a >>= f : Except ε β) = f a := rfl

/-- Monad bind on Except applied to a failure, unfolded. -/
theorem exceptBind_err {ε α β : Type} (e : ε) (f : α → Except ε β) :
    (Except.error e >>= f : Except ε β) = .error e := rfl

/-- Monad pure on Except, unfolded. -/
theorem exceptPure {ε α : Type} (a : α) : (pure a : Except ε α) = .ok a := rfl

/-- Pure value of matchRule for an entry whose getName cannot raise. -/
def matchRuleB (search : String → String → Bool) (e : Entry) (rule : Rule) : Bool :=
  if rule.length = 0 then false
  else
    (match rule.lookup "name" with
     | some pat => search pat e.entry.name
     | none => true) &&
    (match rule.lookup "exec" with
     | some pat => search pat e.getCommandLine
     | none => true)

/-- Pure value of isBlacklisted. -/
def isBlacklistedB (search : String → String → Bool) (config : Config) (e : Entry) : Bool :=
  config.blacklist.any (matchRuleB search e)

/-- On an entry with no custom name, matchRule returns its pure value. -/
theorem Entry.matchRule_eq (search : String → String → Bool) (e : Entry) (rule : Rule)
    (h : e.customName = none) :
    e.matchRule search rule = .ok (matchRuleB search e rule) := by
  have hn : e.getName = .ok e.entry.name := by
    simp [Entry.getName, pyTruthy, h]
  unfold Entry.matchRule matchRuleB
  by_cases hl : rule.length = 0
  · simp [hl]
  · cases hname : rule.lookup "name" <;> cases hexeclook : rule.lookup "exec" <;>
      simp [hl, hname, hexeclook, hn, exceptBind_ok, exceptBind_err, exceptPure]

/-- On an entry with no custom name, the rule loop returns the any-fold of
the pure values. -/
theorem Entry.matchAnyRule_eq (search : String → String → Bool) (e : Entry)
    (h : e.customName = none) :
    ∀ rules : List Rule, e.matchAnyRule search rules = .ok (rules.any (matchRuleB search e))
  | [] => rfl
  | r :: rs => by
    rw [Entry.matchAnyRule, Entry.matchRule_eq search e r h]
    cases hm : matchRuleB search e r <;>
      simp [exceptBind_ok, exceptPure, hm, Entry.matchAnyRule_eq search e h rs]

/-- The Entry main builds for a parsed file: custom name slot set to None. -/
def pipelineEntry (path : String) (d : Desktop) : Entry := ⟨path, d, none⟩

/-- The entries of the walk that survive the parse, NoDisplay and blacklist
checks, in walk order, before deduplication. -/
def eligibleOf (search : String → String → Bool) (config : Config) :
    List WalkItem → List Entry
  | [] => []
  | .dir _ :: rest => eligibleOf search config rest
  | .file _ (.error _) :: rest => eligibleOf search config rest
  | .file path (.ok d) :: rest =>
      let e := pipelineEntry path d
      if e.getNoDisplay || isBlacklistedB search config e then
        eligibleOf search config rest
      else
        e :: eligibleOf search config rest

/-- The diagnostics of a walk: two lines per file whose construction raised
TypeError, in walk order. -/
def stderrOf : List WalkItem → List String
  | [] => []
  | .dir _ :: rest => stderrOf rest
  | .file _ (.ok _) :: rest => stderrOf rest
  | .file path (.error msg) :: rest =>
      parseErrLine1 path :: parseErrLine2 msg :: stderrOf rest

/-- First-seen-wins deduplication by filename, relative to the filenames
already seen. -/
def dedupFirst (seen : List String) : List Entry → List Entry
  | [] => []
  | e :: rest =>
      if seen.contains e.getFilename then
        dedupFirst seen rest
      else
        e :: dedupFirst (seen ++ [e.getFilename]) rest

/-- The walk loop, from any starting state, appends to entriesSorted exactly
the deduplicated eligible entries and to stderr exactly the parse
diagnostics; entriesPinned is never touched. -/
theorem collect_eq (search : String → String → Bool) (config : Config) :
    ∀ (items : List WalkItem) (pinned acc : List Entry) (errs : List String),
      collect search config ⟨pinned, acc, errs⟩ items =
        .ok ⟨pinned,
             acc ++ dedupFirst ((pinned ++ acc).map Entry.getFilename)
                    (eligibleOf search config items),
             errs ++ stderrOf items⟩
  | [], pinned, acc, errs => by simp [collect, eligibleOf, stderrOf, dedupFirst]
  | .dir p :: rest, pinned, acc, errs => by
    rw [collect, processItem, exceptBind_ok]
    simpa [eligibleOf, stderrOf] using collect_eq search config rest pinned acc errs
  | .file p (.error msg) :: rest, pinned, acc, errs => by
    rw [collect, processItem, exceptBind_ok]
    simpa [eligibleOf, stderrOf, List.append_assoc] using
      collect_eq search config rest pinned acc
        (errs ++ [parseErrLine1 p, parseErrLine2 msg])
  | .file p (.ok d) :: rest, pinned, acc, errs => by
    rw [collect, processItem]
    simp only [show ({ path := p, entry := d, customName := none } : Entry) =
      pipelineEntry p d from rfl]
    have hcust : (pipelineEntry p d).customName = none := rfl
    have hbl : (pipelineEntry p d).isBlacklisted search config =
        .ok (isBlacklistedB search config (pipelineEntry p d)) :=
      Entry.matchAnyRule_eq search (pipelineEntry p d) hcust config.blacklist
    by_cases hnd : (pipelineEntry p d).getNoDisplay = true
    · rw [if_pos hnd, exceptPure, exceptBind_ok]
      have helig : eligibleOf search config (.file p (.ok d) :: rest) =
          eligibleOf search config rest := by
        rw [eligibleOf]; simp [hnd]
      rw [helig]
      simpa [stderrOf] using collect_eq search config rest pinned acc errs
    · rw [if_neg hnd, hbl, exceptBind_ok]
      by_cases hb : isBlacklistedB search config (pipelineEntry p d) = true
      · rw [if_pos hb, exceptPure, exceptBind_ok]
        have helig : eligibleOf search config (.file p (.ok d) :: rest) =
            eligibleOf search config rest := by
          rw [eligibleOf]; simp [hb]
        rw [helig]
        simpa [stderrOf] using collect_eq search config rest pinned acc errs
      · rw [if_neg hb]
        have helig : eligibleOf search config (.file p (.ok d) :: rest) =
            pipelineEntry p d :: eligibleOf search config rest := by
          rw [eligibleOf]
          simp only [Bool.or_eq_true] at *
          simp [hnd, hb]
        rw [helig]
        by_cases hdup : ((pinned ++ acc).map Entry.getFilename).contains
            (pipelineEntry p d).getFilename = true
        · rw [if_pos hdup, exceptPure, exceptBind_ok, dedupFirst, if_pos hdup]
          simpa [stderrOf] using collect_eq search config rest pinned acc errs
        · rw [if_neg hdup, exceptPure, exceptBind_ok, dedupFirst, if_neg hdup]
          have ih := collect_eq search config rest pinned (acc ++ [pipelineEntry p d]) errs
          rw [ih]
          simp [stderrOf, List.map_append, List.append_assoc]

/-- The sort key of an entry whose getName cannot raise. -/
def sortKey (strxfrm : String → String) (e : Entry) : String := strxfrm e.entry.name

/-- Pure value of sortEntries on a list of entries whose getName cannot
raise: decorate with the keys, stable merge sort on the keys, undecorate. -/
def sortPure (strxfrm : String → String) (entries : List Entry) : List Entry :=
  ((entries.map (fun e => (sortKey strxfrm e, e))).mergeSort keyLE).map Prod.snd

/-- Pure value of one stdout record for an entry whose getName cannot
raise. -/
def recordOf (e : Entry) : String :=
  e.entry.name ++ "\x00icon\x1f" ++ pyStrOfOptStr e.getIcon ++ "\x1finfo\x1f" ++ e.getPath

/-- On an entry with no custom name, formatRecord returns its pure value. -/
theorem Entry.formatRecord_eq (e : Entry) (h : e.customName = none) :
    e.formatRecord = .ok (recordOf e) := by
  have hn : e.getName = .ok e.entry.name := by simp [Entry.getName, pyTruthy, h]
  simp [Entry.formatRecord, recordOf, hn, exceptBind_ok, exceptPure]

/-- On entries with no custom name, decorate returns the key-entry pairs. -/
theorem decorate_eq (strxfrm : String → String) :
    ∀ entries : List Entry, (∀ e ∈ entries, e.customName = none) →
      decorate strxfrm entries = .ok (entries.map (fun e => (sortKey strxfrm e, e)))
  | [], _ => rfl
  | e :: rest, h => by
    have hn : e.getName = .ok e.entry.name := by
      simp [Entry.getName, pyTruthy, h e (List.mem_cons_self e rest)]
    have ih := decorate_eq strxfrm rest (fun x hx => h x (List.mem_cons_of_mem e hx))
    rw [decorate, hn, exceptBind_ok, ih, exceptBind_ok]
    simp [sortKey, exceptPure]

/-- On entries with no custom name, sortEntries returns its pure value. -/
theorem sortEntries_eq (strxfrm : String → String) (entries : List Entry)
    (h : ∀ e ∈ entries, e.customName = none) :
    sortEntries strxfrm entries = .ok (sortPure strxfrm entries) := by
  rw [sortEntries, decorate_eq strxfrm entries h, exceptBind_ok]
  rfl

/-- On entries with no custom name, the print loop emits the pure records. -/
theorem printAll_eq :
    ∀ entries : List Entry, (∀ e ∈ entries, e.customName = none) →
      printAll entries = .ok (entries.map recordOf)
  | [], _ => rfl
  | e :: rest, h => by
    rw [printAll, Entry.formatRecord_eq e (h e (List.mem_cons_self e rest)), exceptBind_ok,
      printAll_eq rest (fun x hx => h x (List.mem_cons_of_mem e hx)), exceptBind_ok]
    rfl

/-- Deduplication only selects entries of its input. -/
theorem mem_dedupFirst : ∀ (seen : List String) (l : List Entry) (e : Entry),
    e ∈ dedupFirst seen l → e ∈ l
  | _, [], e, h => absurd h (List.not_mem_nil e)
  | seen, x :: rest, e, h => by
    rw [dedupFirst] at h
    by_cases hc : seen.contains x.getFilename = true
    · rw [if_pos hc] at h
      exact List.mem_cons_of_mem x (mem_dedupFirst seen rest e h)
    · rw [if_neg hc] at h
      rcases List.mem_cons.mp h with h1 | h2
      · rw [h1]; exact List.mem_cons_self x rest
      · exact List.mem_cons_of_mem x (mem_dedupFirst _ rest e h2)

/-- Every eligible entry is a pipelineEntry, hence has no custom name. -/
theorem eligibleOf_custom (search : String → String → Bool) (config : Config) :
    ∀ (items : List WalkItem) (e : Entry), e ∈ eligibleOf search config items →
      e.customName = none
  | [], e, h => absurd h (List.not_mem_nil e)
  | .dir _ :: rest, e, h =>
      eligibleOf_custom search config rest e (by rwa [eligibleOf] at h)
  | .file _ (.error _) :: rest, e, h =>
      eligibleOf_custom search config rest e (by rwa [eligibleOf] at h)
  | .file p (.ok d) :: rest, e, h => by
    rw [eligibleOf] at h
    by_cases hc : ((pipelineEntry p d).getNoDisplay ||
        isBlacklistedB search config (pipelineEntry p d)) = true
    · exact eligibleOf_custom search config rest e (by rwa [if_pos hc] at h)
    · rw [if_neg hc] at h
      rcases List.mem_cons.mp h with h1 | h2
      · rw [h1]; rfl
      · exact eligibleOf_custom search config rest e h2

/-- The stable sort permutes, so membership in sortPure is membership in the
input. -/
theorem mem_sortPure (strxfrm : String → String) (l : List Entry) (e : Entry) :
    e ∈ sortPure strxfrm l ↔ e ∈ l := by
  unfold sortPure
  rw [List.mem_map]
  constructor
  · rintro ⟨x, hx, rfl⟩
    rw [List.mem_mergeSort] at hx
    obtain ⟨a, ha, rfl⟩ := List.mem_map.mp hx
    exact ha
  · intro he
    refine ⟨(sortKey strxfrm e, e), ?_, rfl⟩
    rw [List.mem_mergeSort]
    exact List.mem_map.mpr ⟨e, he, rfl⟩

/-- The general list as finally emitted: eligible entries in walk order,
first-seen-wins deduplication, stable sort on the strxfrm keys of the
names. -/
def sortedGeneral (search : String → String → Bool) (strxfrm : String → String)
    (config : Config) (items : List WalkItem) : List Entry :=
  sortPure strxfrm (dedupFirst [] (eligibleOf search config items))

/-- An entry surviving deduplication was not previously seen and is the
first entry of the input that carries its filename. -/
theorem dedupFirst_find : ∀ (seen : List String) (l : List Entry) (e : Entry),
    e ∈ dedupFirst seen l →
      e.getFilename ∉ seen ∧
      l.find? (fun x => x.getFilename == e.getFilename) = some e
  | _, [], e, h => absurd h (List.not_mem_nil e)
  | seen, x :: rest, e, h => by
    rw [dedupFirst] at h
    by_cases hc : seen.contains x.getFilename = true
    · rw [if_pos hc] at h
      obtain ⟨hs, hf⟩ := dedupFirst_find seen rest e h
      refine ⟨hs, ?_⟩
      have hne : ¬(x.getFilename == e.getFilename) = true := by
        intro hbe
        rw [beq_iff_eq] at hbe
        rw [hbe] at hc
        exact hs (by simpa using hc)
      rw [List.find?_cons_of_neg rest hne, hf]
    · rw [if_neg hc] at h
      rcases List.mem_cons.mp h with h1 | h2
      · subst h1
        refine ⟨by simpa using hc, ?_⟩
        exact List.find?_cons_of_pos rest (by simp)
      · obtain ⟨hs, hf⟩ := dedupFirst_find (seen ++ [x.getFilename]) rest e h2
        rw [List.mem_append] at hs
        push_neg at hs
        obtain ⟨hs1, hs2⟩ := hs
        have hne : ¬(x.getFilename == e.getFilename) = true := by
          intro hbe
          rw [beq_iff_eq] at hbe
          exact hs2 (by simp [hbe])
        exact ⟨hs1, by rw [List.find?_cons_of_neg rest hne, hf]⟩

/-- The filenames surviving deduplication are pairwise distinct. -/
theorem dedupFirst_nodup : ∀ (seen : List String) (l : List Entry),
    ((dedupFirst seen l).map Entry.getFilename).Nodup
  | _, [] => List.nodup_nil
  | seen, x :: rest => by
    rw [dedupFirst]
    by_cases hc : seen.contains x.getFilename = true
    · rw [if_pos hc]
      exact dedupFirst_nodup seen rest
    · rw [if_neg hc]
      rw [List.map_cons, List.nodup_cons]
      refine ⟨?_, dedupFirst_nodup (seen ++ [x.getFilename]) rest⟩
      intro hmem
      obtain ⟨e, he, hfe⟩ := List.mem_map.mp hmem
      obtain ⟨hs, _⟩ := dedupFirst_find (seen ++ [x.getFilename]) rest e he
      exact hs (by simp [hfe])

/-- The stable sort is a permutation of its input. -/
theorem sortPure_perm (strxfrm : String → String) (l : List Entry) :
    List.Perm (sortPure strxfrm l) l := by
  unfold sortPure
  have h1 := (List.mergeSort_perm (l.map (fun e => (sortKey strxfrm e, e))) keyLE).map Prod.snd
  rw [List.map_map] at h1
  have h2 : List.map (Prod.snd ∘ fun e => (sortKey strxfrm e, e)) l = l := by
    simp [Function.comp_def]
  rwa [h2] at h1

/-- Closed form of the whole run: it never raises, stdout is one record per
entry of the sorted deduplicated general list, stderr is two lines per
unparseable file. -/
theorem run_eq (search : String → String → Bool) (strxfrm : String → String)
    (config : Config) (items : List WalkItem) :
    run search strxfrm config items =
      .ok ⟨(sortedGeneral search strxfrm config items).map recordOf, stderrOf items⟩ := by
  have hcust : ∀ e ∈ dedupFirst [] (eligibleOf search config items), e.customName = none :=
    fun e he => eligibleOf_custom search config items e (mem_dedupFirst _ _ e he)
  have hc := collect_eq search config items [] [] []
  simp only [List.nil_append, List.append_nil, List.map_nil] at hc
  rw [run, initState, hc, exceptBind_ok]
  dsimp only
  rw [sortEntries_eq strxfrm _ hcust, exceptBind_ok]
  have hcust2 : ∀ e ∈ sortPure strxfrm (dedupFirst [] (eligibleOf search config items)),
      e.customName = none := fun e he => hcust e ((mem_sortPure strxfrm _ e).mp he)
  rw [List.nil_append, printAll_eq _ hcust2, exceptBind_ok]
  rfl

/-- Closed form of the final entry list: the pinned list contributes nothing
and the rest is the sorted deduplicated general list. -/
theorem finalEntries_eq (search : String → String → Bool) (strxfrm : String → String)
    (config : Config) (items : List WalkItem) :
    finalEntries search strxfrm config items =
      .ok (sortedGeneral search strxfrm config items) := by
  have hcust : ∀ e ∈ dedupFirst [] (eligibleOf search config items), e.customName = none :=
    fun e he => eligibleOf_custom search config items e (mem_dedupFirst _ _ e he)
  have hc := collect_eq search config items [] [] []
  simp only [List.nil_append, List.append_nil, List.map_nil] at hc
  rw [finalEntries, initState, hc, exceptBind_ok]
  dsimp only
  rw [sortEntries_eq strxfrm _ hcust, exceptBind_ok]
  simp [sortedGeneral, exceptPure]

/-- Eligibility distributes over concatenation of walks. -/
theorem eligibleOf_append (search : String → String → Bool) (config : Config) :
    ∀ l1 l2 : List WalkItem,
      eligibleOf search config (l1 ++ l2) =
        eligibleOf search config l1 ++ eligibleOf search config l2
  | [], l2 => by simp [eligibleOf]
  | .dir p :: rest, l2 => by
    rw [List.cons_append, eligibleOf, eligibleOf, eligibleOf_append search config rest l2]
  | .file p (.error m) :: rest, l2 => by
    rw [List.cons_append, eligibleOf, eligibleOf, eligibleOf_append search config rest l2]
  | .file p (.ok d) :: rest, l2 => by
    rw [List.cons_append, eligibleOf, eligibleOf]
    by_cases hc : ((pipelineEntry p d).getNoDisplay ||
        isBlacklistedB search config (pipelineEntry p d)) = true
    · rw [if_pos hc, if_pos hc, eligibleOf_append search config rest l2]
    · rw [if_neg hc, if_neg hc, eligibleOf_append search config rest l2, List.cons_append]

/-- Diagnostics distribute over concatenation of walks. -/
theorem stderrOf_append : ∀ l1 l2 : List WalkItem,
    stderrOf (l1 ++ l2) = stderrOf l1 ++ stderrOf l2
  | [], l2 => by simp [stderrOf]
  | .dir p :: rest, l2 => by
    rw [List.cons_append, stderrOf, stderrOf, stderrOf_append rest l2]
  | .file p (.ok d) :: rest, l2 => by
    rw [List.cons_append, stderrOf, stderrOf, stderrOf_append rest l2]
  | .file p (.error m) :: rest, l2 => by
    rw [List.cons_append, stderrOf, stderrOf, stderrOf_append rest l2]
    rfl

/-- Subscription of a JSON document succeeds exactly when the document is an
object carrying the key. -/
theorem getItem_ok_iff (j : Json) (k : String) :
    (∃ v, j.getItem k = .ok v) ↔ j.hasField k = true := by
  cases j with
  | obj fields =>
    rw [Json.hasField]
    cases hl : fields.lookup k with
    | none =>
      simp only [Json.getItem, hl]
      rw [List.lookup_eq_none_iff] at hl
      constructor
      · rintro ⟨v, hv⟩
        exact absurd hv (by simp)
      · intro hany
        obtain ⟨p, hp, hpk⟩ := List.any_eq_true.mp hany
        have hk := hl p hp
        rw [beq_iff_eq] at hpk
        simp [hpk] at hk
    | some v =>
      simp only [Json.getItem, hl]
      constructor
      · intro _
        have hs : (fields.lookup k).isSome := by rw [hl]; rfl
        obtain ⟨p, hp, hpk⟩ := List.lookup_isSome_iff.mp hs
        refine List.any_eq_true.mpr ⟨p, hp, ?_⟩
        rw [beq_iff_eq] at hpk ⊢
        exact hpk.symm
      · intro _
        exact ⟨v, rfl⟩
  | null => simp [Json.getItem, Json.hasField]
  | bool b => simp [Json.getItem, Json.hasField]
  | num n => simp [Json.getItem, Json.hasField]
  | str s => simp [Json.getItem, Json.hasField]
  | arr items => simp [Json.getItem, Json.hasField]

/-! Claims. -/

/-- C1 counterexample: a nonempty rule whose only key is unrecognized (here
the key comment) matches an arbitrary entry even under a regex engine that
never matches, because matchRule only short-circuits on len(rule) == 0 and
both recognized-key conditions hold vacuously; the claim said the result is
false for every entry. -/
theorem C1_counterexample :
    Entry.matchRule (fun _ _ => false)
      ⟨"/r/a.desktop", ⟨false, "A", "a", none⟩, none⟩ [("comment", "x")] = .ok true ∧
    (Except.ok true : Except PyError Bool) ≠ .ok false := by
  exact ⟨rfl, by simp⟩

/-- C1 (amended): a rule with zero keys never matches any entry; a nonempty
rule none of whose keys is recognized (neither name nor exec) matches every
entry. -/
theorem C1_empty_rule (search : String → String → Bool) (e : Entry) (rule : Rule)
    (hname : rule.lookup "name" = none) (hcmd : rule.lookup "exec" = none) :
    Entry.matchRule search e rule = .ok (!rule.isEmpty) := by
  unfold Entry.matchRule
  cases rule with
  | nil => simp
  | cons r rs =>
    simp only [List.length_cons, List.isEmpty_cons]
    have hl : ¬(rs.length + 1 = 0) := by omega
    simp [hl, hname, hcmd, exceptBind_ok, exceptPure]

/-- C1 witness: the amended statement evaluated on the empty rule and on a
concrete unrecognized-key rule. -/
theorem C1_empty_rule_witness :
    Entry.matchRule (fun _ _ => true)
      ⟨"/r/a.desktop", ⟨false, "A", "a", none⟩, none⟩ [] = .ok false ∧
    Entry.matchRule (fun _ _ => false)
      ⟨"/r/a.desktop", ⟨false, "A", "a", none⟩, none⟩ [("comment", "x")] = .ok true := by
  constructor
  · exact C1_empty_rule (fun _ _ => true)
      ⟨"/r/a.desktop", ⟨false, "A", "a", none⟩, none⟩ [] rfl rfl
  · exact C1_empty_rule (fun _ _ => false)
      ⟨"/r/a.desktop", ⟨false, "A", "a", none⟩, none⟩ [("comment", "x")] rfl rfl

/-- C4: the claim (and the docstring of getName) says the custom override
name is returned when set; the code instead evaluates the unbound identifier
customName on that branch and raises NameError, so no entry with a custom
name set can ever have its name read; the fallback branch does return the
descriptor name as claimed. -/
theorem C4_getName_bug :
    (Entry.mk "/r/a.desktop" ⟨false, "Declared", "cmd", none⟩ (some "Custom")).getName =
      .error (.nameError "customName") ∧
    ∀ (path : String) (d : Desktop), (Entry.mk path d none).getName = .ok d.name :=
  ⟨rfl, fun _ _ => rfl⟩

/-- C6: for a rule carrying only the name key, matchRule is exactly the
regex search of the pattern against the resolved display name (re.search is
abstracted as the search parameter), and the command line is irrelevant:
entries differing in command line, path, icon and NoDisplay but agreeing on
name data give identical results. -/
theorem C6_name_only_rule (search : String → String → Bool) (pat : String) :
    (∀ e : Entry, e.matchRule search [("name", pat)] =
      (e.getName).map (fun n => search pat n)) ∧
    (∀ (p1 p2 : String) (nd1 nd2 : Bool) (nm cl1 cl2 : String)
       (ic1 ic2 : Option GIcon) (cn : Option String),
      Entry.matchRule search ⟨p1, ⟨nd1, nm, cl1, ic1⟩, cn⟩ [("name", pat)] =
        Entry.matchRule search ⟨p2, ⟨nd2, nm, cl2, ic2⟩, cn⟩ [("name", pat)]) := by
  have h1 : ∀ e : Entry, e.matchRule search [("name", pat)] =
      (e.getName).map (fun n => search pat n) := by
    intro e
    unfold Entry.matchRule
    have hlk : List.lookup "exec" [("name", pat)] = none := rfl
    cases hn : e.getName with
    | error err => simp [hn, hlk, exceptBind_err, Except.map]
    | ok n => simp [hn, hlk, exceptBind_ok, exceptPure, Except.map]
  refine ⟨h1, ?_⟩
  intro p1 p2 nd1 nd2 nm cl1 cl2 ic1 ic2 cn
  rw [h1, h1]
  rfl

/-- C9: entriesPinned stays empty through every run (nothing is ever routed
into it), so the final entry list is exactly the sorted deduplicated general
list. -/
theorem C9_pinned_empty (search : String → String → Bool) (strxfrm : String → String)
    (config : Config) (items : List WalkItem) :
    (collect search config initState items).map PipeState.entriesPinned = .ok [] ∧
    finalEntries search strxfrm config items =
      .ok (sortPure strxfrm (dedupFirst [] (eligibleOf search config items))) := by
  constructor
  · have hc := collect_eq search config items [] [] []
    simp only [List.nil_append, List.append_nil, List.map_nil] at hc
    rw [initState, hc]
    rfl
  · rw [finalEntries_eq]
    rfl

/-- C10: comment stripping is string-literal-blind: on a line whose text up
to the comment marker contains no double slash, everything from the first
double slash to the end of the line is removed even when it stands inside a
JSON string, so a config whose pattern value contains a double slash is
truncated before parsing (shown on a concrete blacklist rule with a URL
pattern). -/
theorem C10_string_blind (pre rest : List Char)
    (h : hasDoubleSlash (pre ++ ['/']) = false) :
    stripChars (pre ++ '/' :: '/' :: rest) = pre ∧
    stripComments "\x7b \"blacklist\": [ \x7b \"exec\": \"https://e\" \x7d ] \x7d" =
      "\x7b \"blacklist\": [ \x7b \"exec\": \"https:" :=
  ⟨stripChars_cut pre rest h, by decide⟩

/-- C10 witness: the cut evaluated on a concrete line whose double slash
stands inside a JSON string value. -/
theorem C10_string_blind_witness :
    stripChars (" \"name\": \"https:".data ++ '/' :: '/' :: "x\"".data) =
      " \"name\": \"https:".data ∧
    stripComments "\x7b \"blacklist\": [ \x7b \"exec\": \"https://e\" \x7d ] \x7d" =
      "\x7b \"blacklist\": [ \x7b \"exec\": \"https:" :=
  C10_string_blind (" \"name\": \"https:".data) ("x\"".data) (by decide)

/-- C2 counterexample: one unparseable file contributes zero stdout records
but two stderr lines, not one — the handler prints a description line and
then the exception text. -/
theorem C2_counterexample :
    run (fun _ _ => false) id ⟨[], [], []⟩ [.file "/r/bad" (.error "boom")] =
      .ok ⟨[], [parseErrLine1 "/r/bad", parseErrLine2 "boom"]⟩ ∧
    [parseErrLine1 "/r/bad", parseErrLine2 "boom"].length ≠ 1 := by
  constructor
  · rw [run_eq]
    simp [sortedGeneral, eligibleOf, stderrOf, dedupFirst, sortPure]
  · decide

/-- C2 (amended): a file whose descriptor parsing fails contributes zero
stdout records — stdout is what the run without that file produces — and
exactly two diagnostic stderr lines, and the pipeline continues with every
other file of the walk. -/
theorem C2_skip_and_continue (search : String → String → Bool) (strxfrm : String → String)
    (config : Config) (pre post : List WalkItem) (path msg : String) :
    (run search strxfrm config (pre ++ WalkItem.file path (.error msg) :: post)).map
        RunOutput.stdoutLines =
      (run search strxfrm config (pre ++ post)).map RunOutput.stdoutLines ∧
    (run search strxfrm config (pre ++ WalkItem.file path (.error msg) :: post)).map
        RunOutput.stderrLines =
      .ok (stderrOf pre ++ parseErrLine1 path :: parseErrLine2 msg :: stderrOf post) := by
  have helig : eligibleOf search config (pre ++ WalkItem.file path (.error msg) :: post) =
      eligibleOf search config (pre ++ post) := by
    rw [eligibleOf_append, eligibleOf_append, eligibleOf]
  have herr : stderrOf (pre ++ WalkItem.file path (.error msg) :: post) =
      stderrOf pre ++ parseErrLine1 path :: parseErrLine2 msg :: stderrOf post := by
    rw [stderrOf_append, stderrOf]
  rw [run_eq, run_eq]
  constructor
  · simp [sortedGeneral, helig, Except.map]
  · simp [herr, Except.map]

/-- C3 counterexample: an entry without an icon is emitted with the literal
four-character string None in its icon field — str(None) — and the record
differs from the empty-icon-field record the claim describes. -/
theorem C3_counterexample :
    run (fun _ _ => false) id ⟨[], [], []⟩
      [.file "/r/a.desktop" (.ok ⟨false, "A", "a", none⟩)] =
      .ok ⟨["A\x00icon\x1fNone\x1finfo\x1f/r/a.desktop"], []⟩ ∧
    "A\x00icon\x1fNone\x1finfo\x1f/r/a.desktop" ≠ "A\x00icon\x1f\x1finfo\x1f/r/a.desktop" := by
  constructor
  · rw [run_eq]
    simp [sortedGeneral, eligibleOf, stderrOf, dedupFirst, sortPure, pipelineEntry,
      isBlacklistedB, Entry.getNoDisplay, recordOf, Entry.getIcon, pyStrOfOptStr,
      Entry.getPath]
  · decide

/-- C3 (amended): every stdout record is the resolved name, NUL, the word
icon, US, the f-string rendering of getIcon(), US, the word info, US and the
absolute descriptor path — where an absent icon renders as the string None,
not as an empty field, and a present icon renders as itself. -/
theorem C3_record_shape (search : String → String → Bool) (strxfrm : String → String)
    (config : Config) (items : List WalkItem) :
    (run search strxfrm config items).map RunOutput.stdoutLines =
      .ok ((sortedGeneral search strxfrm config items).map recordOf) ∧
    (∀ e : Entry, recordOf e =
      e.entry.name ++ "\x00icon\x1f" ++ pyStrOfOptStr e.getIcon ++ "\x1finfo\x1f" ++
        e.getPath) ∧
    pyStrOfOptStr none = "None" ∧ (∀ s, pyStrOfOptStr (some s) = s) := by
  refine ⟨?_, fun _ => rfl, rfl, fun _ => rfl⟩
  rw [run_eq]
  rfl

/-- C5: the final entry list carries pairwise distinct filenames, and every
surviving entry is the first eligible entry of the walk — the roots being
walked in priority order — that carries its filename. -/
theorem C5_first_seen (search : String → String → Bool) (strxfrm : String → String)
    (config : Config) (items : List WalkItem) (out : List Entry)
    (h : finalEntries search strxfrm config items = .ok out) :
    (out.map Entry.getFilename).Nodup ∧
    ∀ e ∈ out, (eligibleOf search config items).find?
      (fun x => x.getFilename == e.getFilename) = some e := by
  rw [finalEntries_eq] at h
  have hout : out = sortedGeneral search strxfrm config items := (Except.ok.inj h).symm
  subst hout
  unfold sortedGeneral
  constructor
  · have hperm := (sortPure_perm strxfrm
      (dedupFirst [] (eligibleOf search config items))).map Entry.getFilename
    exact (List.Perm.nodup_iff hperm).mpr (dedupFirst_nodup [] _)
  · intro e he
    have he2 : e ∈ dedupFirst [] (eligibleOf search config items) :=
      (mem_sortPure strxfrm _ e).mp he
    exact (dedupFirst_find [] _ e he2).2

/-- C5 witness: the theorem evaluated on a walk carrying the same filename
under two roots; the closed form of the final list discharges the
hypothesis. -/
theorem C5_first_seen_witness :
    ((sortedGeneral (fun _ _ => false) id ⟨[], [], []⟩
        [WalkItem.file "/home/u/.local/share/applications/app.desktop"
           (.ok ⟨false, "U", "u", none⟩),
         WalkItem.file "/usr/share/applications/app.desktop"
           (.ok ⟨false, "S", "s", none⟩)]).map Entry.getFilename).Nodup ∧
    ∀ e ∈ sortedGeneral (fun _ _ => false) id ⟨[], [], []⟩
        [WalkItem.file "/home/u/.local/share/applications/app.desktop"
           (.ok ⟨false, "U", "u", none⟩),
         WalkItem.file "/usr/share/applications/app.desktop"
           (.ok ⟨false, "S", "s", none⟩)],
      (eligibleOf (fun _ _ => false) ⟨[], [], []⟩
        [WalkItem.file "/home/u/.local/share/applications/app.desktop"
           (.ok ⟨false, "U", "u", none⟩),
         WalkItem.file "/usr/share/applications/app.desktop"
           (.ok ⟨false, "S", "s", none⟩)]).find?
        (fun x => x.getFilename == e.getFilename) = some e :=
  C5_first_seen (fun _ _ => false) id ⟨[], [], []⟩ _ _ (finalEntries_eq _ _ _ _)

/-- C7: config loading succeeds exactly when the file is readable, the
comment-stripped text parses, and the parsed document carries the three
required fields blacklist, pinned and customs; otherwise an error
propagates and no config value is produced. -/
theorem C7_config_load (fileContent : Except PyError String)
    (parseJson : String → Option Json) :
    (∃ cfg, loadConfig fileContent parseJson = .ok cfg) ↔
      ∃ raw, fileContent = .ok raw ∧
        ∃ doc, parseJson (stripComments raw) = some doc ∧
          doc.hasField "blacklist" = true ∧ doc.hasField "pinned" = true ∧
          doc.hasField "customs" = true := by
  cases fileContent with
  | error err =>
    constructor
    · rintro ⟨cfg, hc⟩
      rw [loadConfig, exceptBind_err] at hc
      cases hc
    · rintro ⟨raw, hraw, _⟩
      cases hraw
  | ok raw =>
    cases hp : parseJson (stripComments raw) with
    | none =>
      constructor
      · rintro ⟨cfg, hc⟩
        rw [loadConfig, exceptBind_ok, hp] at hc
        cases hc
      · rintro ⟨raw2, hraw2, doc, hdoc, _⟩
        obtain rfl : raw = raw2 := Except.ok.inj hraw2
        rw [hp] at hdoc
        cases hdoc
    | some doc =>
      have hload : loadConfig (.ok raw) parseJson =
          (doc.getItem "blacklist" >>= fun bl =>
            doc.getItem "pinned" >>= fun pn =>
            doc.getItem "customs" >>= fun cs => pure (bl, pn, cs)) := by
        rw [loadConfig, exceptBind_ok, hp]
      constructor
      · rintro ⟨cfg, hc⟩
        rw [hload] at hc
        cases hbl : doc.getItem "blacklist" with
        | error e1 => rw [hbl, exceptBind_err] at hc; cases hc
        | ok bl =>
          rw [hbl, exceptBind_ok] at hc
          cases hpn : doc.getItem "pinned" with
          | error e2 => rw [hpn, exceptBind_err] at hc; cases hc
          | ok pn =>
            rw [hpn, exceptBind_ok] at hc
            cases hcs : doc.getItem "customs" with
            | error e3 => rw [hcs, exceptBind_err] at hc; cases hc
            | ok cs =>
              exact ⟨raw, rfl, doc, hp,
                (getItem_ok_iff doc _).mp ⟨bl, hbl⟩,
                (getItem_ok_iff doc _).mp ⟨pn, hpn⟩,
                (getItem_ok_iff doc _).mp ⟨cs, hcs⟩⟩
      · rintro ⟨raw2, hraw2, doc2, hdoc2, hbl, hpn, hcs⟩
        obtain rfl : raw = raw2 := Except.ok.inj hraw2
        rw [hp] at hdoc2
        obtain rfl : doc = doc2 := Option.some.inj hdoc2
        obtain ⟨bl, hbl2⟩ := (getItem_ok_iff doc "blacklist").mpr hbl
        obtain ⟨pn, hpn2⟩ := (getItem_ok_iff doc "pinned").mpr hpn
        obtain ⟨cs, hcs2⟩ := (getItem_ok_iff doc "customs").mpr hcs
        refine ⟨(bl, pn, cs), ?_⟩
        rw [hload, hbl2, exceptBind_ok, hpn2, exceptBind_ok, hcs2, exceptBind_ok]
        rfl

/-- C8: the key comparison the sort uses is total and transitive (so the
order on decorated entries is a linear preorder induced by the String order
on strxfrm keys), the sort is stable — an input pair whose keys are ordered
keeps its relative order — and re-sorting an already sorted list changes
nothing. -/
theorem C8_sort_order (strxfrm : String → String) :
    (∀ a b : String × Entry, (keyLE a b || keyLE b a) = true) ∧
    (∀ a b c : String × Entry, keyLE a b = true → keyLE b c = true → keyLE a c = true) ∧
    (∀ (a b : Entry) (l : List Entry), List.Sublist [a, b] l →
      sortKey strxfrm a ≤ sortKey strxfrm b →
      List.Sublist [a, b] (sortPure strxfrm l)) ∧
    (∀ l : List Entry, sortPure strxfrm (sortPure strxfrm l) = sortPure strxfrm l) := by
  have htotal : ∀ a b : String × Entry, (keyLE a b || keyLE b a) = true := by
    intro a b
    rw [keyLE, keyLE, Bool.or_eq_true, decide_eq_true_iff, decide_eq_true_iff]
    exact le_total a.1 b.1
  have htrans : ∀ a b c : String × Entry,
      keyLE a b = true → keyLE b c = true → keyLE a c = true := by
    intro a b c hab hbc
    rw [keyLE, decide_eq_true_iff] at hab hbc ⊢
    exact le_trans hab hbc
  refine ⟨htotal, htrans, ?_, ?_⟩
  · intro a b l hsub hle
    unfold sortPure
    have hsub2 := hsub.map (fun e => (sortKey strxfrm e, e))
    have hpair := List.pair_sublist_mergeSort htrans htotal
      (by rw [keyLE, decide_eq_true_iff]; exact hle) hsub2
    have := hpair.map Prod.snd
    simpa using this
  · intro l
    have hmap : (sortPure strxfrm l).map (fun e => (sortKey strxfrm e, e)) =
        (l.map (fun e => (sortKey strxfrm e, e))).mergeSort keyLE := by
      unfold sortPure
      rw [List.map_map]
      have hpoint : ∀ x ∈ (l.map (fun e => (sortKey strxfrm e, e))).mergeSort keyLE,
          ((fun e => (sortKey strxfrm e, e)) ∘ Prod.snd) x = id x := by
        intro x hx
        rw [List.mem_mergeSort] at hx
        obtain ⟨e, he, rfl⟩ := List.mem_map.mp hx
        rfl
      rw [List.map_congr_left hpoint, List.map_id]
    have hsorted : ((l.map (fun e => (sortKey strxfrm e, e))).mergeSort keyLE).Pairwise
        (fun a b => keyLE a b) :=
      List.sorted_mergeSort htrans htotal _
    calc sortPure strxfrm (sortPure strxfrm l)
        = (((sortPure strxfrm l).map
            (fun e => (sortKey strxfrm e, e))).mergeSort keyLE).map Prod.snd := rfl
      _ = (((l.map (fun e => (sortKey strxfrm e, e))).mergeSort keyLE).mergeSort
            keyLE).map Prod.snd := by rw [hmap]
      _ = ((l.map (fun e => (sortKey strxfrm e, e))).mergeSort keyLE).map Prod.snd := by
            rw [List.mergeSort_of_sorted hsorted]
      _ = sortPure strxfrm l := rfl

/-- C8 witness: stability on two concrete entries with equal keys — the tie
keeps input order — and transitivity on concrete equal keys. -/
theorem C8_sort_order_witness :
    List.Sublist
      [(⟨"/a", ⟨false, "Alpha", "", none⟩, none⟩ : Entry),
       ⟨"/b", ⟨false, "Alpha", "", none⟩, none⟩]
      (sortPure id
        [⟨"/a", ⟨false, "Alpha", "", none⟩, none⟩,
         ⟨"/b", ⟨false, "Alpha", "", none⟩, none⟩]) ∧
    keyLE ("a", ⟨"/a", ⟨false, "Alpha", "", none⟩, none⟩)
      ("a", ⟨"/a", ⟨false, "Alpha", "", none⟩, none⟩) = true := by
  constructor
  · exact (C8_sort_order id).2.2.1 _ _ _ (List.Sublist.refl _)
      (le_refl (sortKey id ⟨"/a", ⟨false, "Alpha", "", none⟩, none⟩))
  · exact (C8_sort_order id).2.1 ("a", ⟨"/a", ⟨false, "Alpha", "", none⟩, none⟩)
      ("a", ⟨"/a", ⟨false, "Alpha", "", none⟩, none⟩)
      ("a", ⟨"/a", ⟨false, "Alpha", "", none⟩, none⟩)
      (decide_eq_true (le_refl ("a" : String)))
      (decide_eq_true (le_refl ("a" : String)))

end RofiApps
